import Mathlib

/-!
Verification of the interactive quiz/poll widget
(`src/extensions/amp-story/1.0/amp-story-interactive.js`).

Two cores are embedded:

1. the percentage apportionment engine `preprocessPercentages_`, and
2. the response lifecycle (tap handling, remote retrieval, reconciliation).

Percentages in the source are carried as `toFixed(2)` strings, i.e. decimal
values with exactly two fractional digits.  The embedding represents each such
value by a natural number of *hundredths of a percent* (a "centi" value):
the string "33.33" is the natural number 3333.  All operations of the source
(`Math.round`, `Math.floor`, the 2/3 overshoot correction, `toFixed(2)`
re-rounding) become exact integer arithmetic on these numbers.
-/

namespace AmpStoryInteractive

/-- One per-option aggregate entry, mirroring the source record
`InteractiveOptionType = {optionIndex, totalCount, selectedByUser}`. -/
structure InteractiveOption where
  optionIndex : Nat
  totalCount : Nat
  selectedByUser : Bool
deriving DecidableEq, Repr

/-! ## Percentage apportionment engine (`preprocessPercentages_`) -/

/-- `Math.round` applied to a centi value `c` standing for the number `c / 100`:
JavaScript rounds half up, so this is `⌊c/100 + 1/2⌋ = (c + 50) / 100`. -/
def mathRound (c : Nat) : Nat := (c + 50) / 100

/-- `((100 * count) / total).toFixed(2)` as a centi value: the exact rational
`10000 * count / total` rounded half up to the nearest integer, i.e.
`⌊(10000*count)/total + 1/2⌋ = (20000*count + total) / (2*total)`. -/
def rawPercentage (total count : Nat) : Nat :=
  (20000 * count + total) / (2 * total)

/-- `(percentage - (2 * (percentage - Math.floor(percentage))) / 3).toFixed(2)`
as a centi value: with `r = c % 100` the fractional part in centi units, the
new value is `c - 2*r/3` rounded half up, i.e. `(6*c - 4*r + 3) / 6`. -/
def adjustPercentage (c : Nat) : Nat :=
  (6 * c - 4 * (c % 100) + 3) / 6

/-- The entries built for the largest-remainder pass, mirroring
`{originalIndex: index, value: percentage, remainder: percentage - floor}`. -/
structure PercentageObj where
  originalIndex : Nat
  value : Nat
  remainder : Nat
deriving DecidableEq, Repr

/-- `percentages.map((percentage, index) => {...})`: pair every centi value
with its position and its fractional part (in centi units). -/
def toPercentageObjs : Nat → List Nat → List PercentageObj
  | _, [] => []
  | i, c :: cs => ⟨i, c, c % 100⟩ :: toPercentageObjs (i + 1) cs

/-- The sort comparator
`(left, right) => right.remainder - left.remainder || right.value - left.value`:
`a` comes before `b` when `a` has the larger remainder, ties broken by the
larger value. -/
def objBefore (a b : PercentageObj) : Bool :=
  decide (b.remainder < a.remainder) ||
    (a.remainder == b.remainder && decide (b.value ≤ a.value))

/-- Insert an entry into an already sorted list, keeping the comparator order. -/
def insertObj (x : PercentageObj) : List PercentageObj → List PercentageObj
  | [] => [x]
  | y :: ys => if objBefore x y then x :: y :: ys else y :: insertObj x ys

/-- `preserveOriginal.sort(comparator)` as an insertion sort. -/
def sortObjs (l : List PercentageObj) : List PercentageObj :=
  l.foldr insertObj []

/-- The `while (remainder > 0 && preserveOriginal.length !== 0)` loop together
with the trailing `forEach` that floors every unvisited entry.  Each iteration
removes the whole tie group of the first (highest-remainder) entry, so the list
shrinks every time; the first argument is a structural-recursion bound on the
number of iterations, and the loop is run with bound `= length`, which is
provably sufficient (`distributeLoop_fuel_irrelevant`).  The group is rounded
up only when it fits into the remaining budget and its remainder is not
`'0.00'`; the result is the association list `originalIndex ↦ final value`. -/
def distributeLoop : Nat → Int → List PercentageObj → List (Nat × Nat)
  | fuel + 1, remainder, top :: rest =>
    if 0 < remainder then
      let ties := (top :: rest).filter (fun e => e.value == top.value)
      let rest' := (top :: rest).filter (fun e => !(e.value == top.value))
      let toRoundUp : Bool :=
        decide ((ties.length : Int) ≤ remainder) && !(top.remainder == 0)
      ties.map (fun e => (e.originalIndex, e.value / 100 + if toRoundUp then 1 else 0))
        ++ distributeLoop fuel (if toRoundUp then remainder - ties.length else remainder) rest'
    else
      (top :: rest).map (fun e => (e.originalIndex, e.value / 100))
  | _ + 1, _, [] => []
  | 0, _, l => l.map (fun e => (e.originalIndex, e.value / 100))

/-- `optionsData.reduce((acc, response) => acc + response['totalCount'], 0)`. -/
def totalResponseCount (optionsData : List InteractiveOption) : Nat :=
  (optionsData.map (fun e => e.totalCount)).sum

/-- The raw `toFixed(2)` percentages, one per option. -/
def rawPercentages (optionsData : List InteractiveOption) : List Nat :=
  optionsData.map (fun e => rawPercentage (totalResponseCount optionsData) e.totalCount)

/-- The overshoot correction: if the rounded values add to more than 100,
subtract two thirds of every fractional part (and re-round to two digits);
otherwise leave the list unchanged. -/
def overshootCorrect (ps : List Nat) : List Nat :=
  if 100 < (ps.map mathRound).sum then ps.map adjustPercentage else ps

/-- The percentages after the (possible) overshoot correction. -/
def correctedPercentages (optionsData : List InteractiveOption) : List Nat :=
  overshootCorrect (rawPercentages optionsData)

/-- `total` as recomputed after the (possible) correction. -/
def correctedTotal (optionsData : List InteractiveOption) : Nat :=
  ((correctedPercentages optionsData).map mathRound).sum

/-- `remainder = 100 - total`, a JavaScript number that may be negative. -/
def remainderBudget (optionsData : List InteractiveOption) : Int :=
  100 - (correctedTotal optionsData : Int)

/-- The sorted `preserveOriginal` array. -/
def sortedObjs (optionsData : List InteractiveOption) : List PercentageObj :=
  sortObjs (toPercentageObjs 0 (correctedPercentages optionsData))

/-- The `finalPercentages` sparse array built by the loop, as an association
list from original index to final integer percentage. -/
def finalAssignments (optionsData : List InteractiveOption) : List (Nat × Nat) :=
  distributeLoop (sortedObjs optionsData).length (remainderBudget optionsData)
    (sortedObjs optionsData)

/-- `preprocessPercentages_(optionsData)`: the full apportionment pipeline. -/
def preprocessPercentages (optionsData : List InteractiveOption) : List Nat :=
  if correctedTotal optionsData = 100 then
    (correctedPercentages optionsData).map mathRound
  else
    (List.range optionsData.length).map
      (fun i => ((finalAssignments optionsData).lookup i).getD 0)

/-! ## Response lifecycle (taps, retrieval, reconciliation)

The controller is single-threaded and run-to-completion.  The widget moves
between events of two asynchronous sources: user taps and the settlement of
`backendDataPromise_`.  `handleOptionSelection_` chains its body on that
promise, so a tap that fires while the promise is still pending only queues a
continuation; the continuation runs after the retrieval handler.  The observable
side effects (analytics events, percentage renders via
`updateOptionPercentages_`, post-selection renders via
`updateToPostSelectionState_`, POST submissions) are recorded in the state. -/

/-- The mutable per-widget state together with the logs of outbound calls. -/
structure WidgetState where
  hasUserSelection : Bool
  optionsData : Option (List InteractiveOption)
  analyticsEvents : Nat
  percentageRenders : Nat
  postSelectionRenders : List Nat
  submissions : List Nat
deriving DecidableEq, Repr

/-- `this.optionsData_[idx]['totalCount']++; this.optionsData_[idx]['selectedByUser'] = true`
for an in-range position `idx`. -/
def applySelection : List InteractiveOption → Nat → List InteractiveOption
  | [], _ => []
  | e :: es, 0 => { e with totalCount := e.totalCount + 1, selectedByUser := true } :: es
  | e :: es, i + 1 => e :: applySelection es i

/-- The `.catch(...)` body of `handleOptionSelection_`: analytics, lock the
selection, render the post-selection view.  No store mutation, no POST. -/
def handleTapCatch (idx : Nat) (s : WidgetState) : WidgetState :=
  { s with analyticsEvents := s.analyticsEvents + 1,
           hasUserSelection := true,
           postSelectionRenders := s.postSelectionRenders ++ [idx] }

/-- The `.then(...)` body of `handleOptionSelection_`.  When `optionsData_`
exists but position `idx` is absent, the JavaScript statement
`optionsData_[idx]['totalCount']++` throws after analytics and the lock were
already applied, and the promise chain falls into the `.catch` body. -/
def handleTapThen (hasEndpoint : Bool) (idx : Nat) (s : WidgetState) : WidgetState :=
  if s.hasUserSelection then s
  else
    match s.optionsData with
    | none =>
      { s with analyticsEvents := s.analyticsEvents + 1,
               hasUserSelection := true,
               postSelectionRenders := s.postSelectionRenders ++ [idx],
               submissions := if hasEndpoint then s.submissions ++ [idx] else s.submissions }
    | some d =>
      if idx < d.length then
        { s with analyticsEvents := s.analyticsEvents + 1,
                 hasUserSelection := true,
                 optionsData := some (applySelection d idx),
                 percentageRenders := s.percentageRenders + 1,
                 postSelectionRenders := s.postSelectionRenders ++ [idx],
                 submissions := if hasEndpoint then s.submissions ++ [idx] else s.submissions }
      else
        handleTapCatch idx
          { s with analyticsEvents := s.analyticsEvents + 1, hasUserSelection := true }

/-- The retrieval payload: an object that may or may not carry the expected
`options` field. -/
structure InteractiveResponse where
  options : Option (List InteractiveOption)
deriving DecidableEq, Repr

/-- The `data.forEach((response, index) => ...)` pass of
`updateComponentOnDataRetrieval_`: every entry marked `selectedByUser` locks
the selection and triggers the percentage and post-selection renders for its
position. -/
def applySelectedRenders : Nat → List InteractiveOption → WidgetState → WidgetState
  | _, [], s => s
  | i, e :: es, s =>
    applySelectedRenders (i + 1) es
      (if e.selectedByUser then
        { s with hasUserSelection := true,
                 percentageRenders := s.percentageRenders + 1,
                 postSelectionRenders := s.postSelectionRenders ++ [i] }
       else s)

/-- `updateComponentOnDataRetrieval_(data)`: store the entries, then replay the
renders for any entry already selected by the current user. -/
def updateComponentOnDataRetrieval (data : List InteractiveOption) (s : WidgetState) :
    WidgetState :=
  applySelectedRenders 0 data { s with optionsData := some data }

/-- `handleSuccessfulDataRetrieval_(response)`: a missing response or a missing
`options` field is logged and ignored; otherwise only the first `numOptions`
entries are kept. -/
def handleSuccessfulDataRetrieval (numOptions : Nat) (response : Option InteractiveResponse)
    (s : WidgetState) : WidgetState :=
  match response with
  | none => s
  | some r =>
    match r.options with
    | none => s
    | some entries => updateComponentOnDataRetrieval (entries.take numOptions) s

/-- The settlement status of `backendDataPromise_`. -/
inductive PromiseStatus where
  | pending
  | resolved
  | rejected
deriving DecidableEq, Repr

/-- A widget: its state, the backend promise status, the tap continuations
queued on the still-pending promise, the number of visible options, and
whether an `endpoint` attribute is configured. -/
structure Widget where
  state : WidgetState
  backendData : PromiseStatus
  pendingTaps : List Nat
  numOptions : Nat
  hasEndpoint : Bool
deriving DecidableEq, Repr

/-- The asynchronous sources: a user tap on an option, and the settlement of
the initial retrieval (success with a payload, or rejection as for an invalid
endpoint URL). -/
inductive Event where
  | tap (idx : Nat)
  | retrievalSuccess (response : Option InteractiveResponse)
  | retrievalFailure
deriving DecidableEq, Repr

/-- One run-to-completion handler execution.  A tap first passes the
synchronous `hasUserSelection_` guard of `handleTap_`; its continuation then
runs immediately when the promise is already settled, and is queued otherwise.
When the promise settles, the retrieval handler runs first and the queued tap
continuations run afterwards, in order. -/
def step (w : Widget) : Event → Widget
  | .tap idx =>
    if w.state.hasUserSelection then w
    else
      match w.backendData with
      | .pending => { w with pendingTaps := w.pendingTaps ++ [idx] }
      | .resolved => { w with state := handleTapThen w.hasEndpoint idx w.state }
      | .rejected => { w with state := handleTapCatch idx w.state }
  | .retrievalSuccess response =>
    match w.backendData with
    | .pending =>
      { w with
        state := w.pendingTaps.foldl (fun s i => handleTapThen w.hasEndpoint i s)
          (handleSuccessfulDataRetrieval w.numOptions response w.state),
        backendData := .resolved,
        pendingTaps := [] }
    | _ => w
  | .retrievalFailure =>
    match w.backendData with
    | .pending =>
      { w with
        state := w.pendingTaps.foldl (fun s i => handleTapCatch i s) w.state,
        backendData := .rejected,
        pendingTaps := [] }
    | _ => w

/-- The state before any event. -/
def initState : WidgetState :=
  { hasUserSelection := false, optionsData := none, analyticsEvents := 0,
    percentageRenders := 0, postSelectionRenders := [], submissions := [] }

/-- A freshly attached widget.  With an endpoint the retrieval is in flight
(`backendDataPromise_` pending); without one the promise is already resolved
(`Promise.resolve()` in `layoutCallback`). -/
def initWidget (hasEndpoint : Bool) (numOptions : Nat) : Widget :=
  { state := initState,
    backendData := if hasEndpoint then .pending else .resolved,
    pendingTaps := [], numOptions := numOptions, hasEndpoint := hasEndpoint }

/-- Run a sequence of events. -/
def run (w : Widget) (events : List Event) : Widget :=
  events.foldl step w

/-- The number of stored aggregate entries flagged `selectedByUser`. -/
def selectedCount (s : WidgetState) : Nat :=
  match s.optionsData with
  | none => 0
  | some d => (d.filter (fun e => e.selectedByUser)).length

/-- The single-selection invariant on a widget state, strengthened for the
induction: while no selection is locked the stored data carries no
`selectedByUser` flag at all, and in general it carries at most one. -/
def SingleSelectionInv (s : WidgetState) : Prop :=
  (s.hasUserSelection = false → selectedCount s = 0) ∧ selectedCount s ≤ 1

/-- The spec's wording of the overshoot correction, over exact rationals:
"adjust every entry by subtracting `(2/3) * fractionalPart(rawPct[i])`".
Used to compare the integer arithmetic of `adjustPercentage` against the
spec's formula. -/
def specAdjustedPercentage (x : ℚ) : ℚ :=
  x - 2 / 3 * (x - ⌊x⌋)

/-- A retrieval payload respects the single-selection contract when it carries
at most one entry flagged `selectedByUser`; taps and failures are
unconstrained. -/
def eventOk : Event → Bool
  | .retrievalSuccess (some r) =>
    match r.options with
    | some entries => decide ((entries.filter (fun e => e.selectedByUser)).length ≤ 1)
    | none => true
  | _ => true

/-! ## Lifecycle lemmas -/

theorem applySelectedRenders_optionsData (i : Nat) (d : List InteractiveOption)
    (s : WidgetState) : (applySelectedRenders i d s).optionsData = s.optionsData := by
  induction d generalizing i s with
  | nil => rfl
  | cons e es ih =>
    simp only [applySelectedRenders]
    rw [ih]
    by_cases h : e.selectedByUser <;> simp [h]

theorem applySelectedRenders_analyticsEvents (i : Nat) (d : List InteractiveOption)
    (s : WidgetState) : (applySelectedRenders i d s).analyticsEvents = s.analyticsEvents := by
  induction d generalizing i s with
  | nil => rfl
  | cons e es ih =>
    simp only [applySelectedRenders]
    rw [ih]
    by_cases h : e.selectedByUser <;> simp [h]

theorem applySelectedRenders_hasUserSelection (i : Nat) (d : List InteractiveOption)
    (s : WidgetState) :
    (applySelectedRenders i d s).hasUserSelection
      = (s.hasUserSelection || d.any (fun e => e.selectedByUser)) := by
  induction d generalizing i s with
  | nil => simp [applySelectedRenders]
  | cons e es ih =>
    simp only [applySelectedRenders, List.any_cons]
    rw [ih]
    by_cases h : e.selectedByUser <;> simp [h]

theorem updateComponentOnDataRetrieval_optionsData (d : List InteractiveOption)
    (s : WidgetState) : (updateComponentOnDataRetrieval d s).optionsData = some d := by
  simp [updateComponentOnDataRetrieval, applySelectedRenders_optionsData]

theorem updateComponentOnDataRetrieval_hasUserSelection (d : List InteractiveOption)
    (s : WidgetState) :
    (updateComponentOnDataRetrieval d s).hasUserSelection
      = (s.hasUserSelection || d.any (fun e => e.selectedByUser)) := by
  simp [updateComponentOnDataRetrieval, applySelectedRenders_hasUserSelection]

theorem updateComponentOnDataRetrieval_analyticsEvents (d : List InteractiveOption)
    (s : WidgetState) :
    (updateComponentOnDataRetrieval d s).analyticsEvents = s.analyticsEvents := by
  simp [updateComponentOnDataRetrieval, applySelectedRenders_analyticsEvents]

theorem handleTapThen_of_hasUserSelection (hasEndpoint : Bool) (idx : Nat)
    (s : WidgetState) (h : s.hasUserSelection = true) :
    handleTapThen hasEndpoint idx s = s := by
  simp [handleTapThen, h]

/-! ## Claim C4: taps after the lock are no-ops -/

/-- Claim C4: once the lifecycle state is locked (`hasUserSelection_` is
true), a further tap event with any option index leaves the whole widget
unchanged: no count or `selectedByUser` change, no analytics event, no render,
no submission. -/
theorem c4_locked_taps_are_noops (w : Widget) (idx : Nat)
    (h : w.state.hasUserSelection = true) :
    step w (.tap idx) = w := by
  simp [step, h]

/-- Witness for C4 at a concrete locked widget: an endpoint-less widget after
an initial tap on option 0 is locked, and a second tap on option 1 changes
nothing. -/
theorem c4_locked_taps_are_noops_witness :
    (run (initWidget false 2) [Event.tap 0]).state.hasUserSelection = true ∧
    step (run (initWidget false 2) [Event.tap 0]) (Event.tap 1)
      = run (initWidget false 2) [Event.tap 0] :=
  ⟨by decide, c4_locked_taps_are_noops (run (initWidget false 2) [Event.tap 0]) 1 (by decide)⟩

/-! ## Claim C6: malformed retrieval payloads are ignored -/

/-- Claim C6: when the retrieval response is missing (`undefined`) or is
missing its `options` field, `handleSuccessfulDataRetrieval_` changes nothing:
the state (selection lock, stored aggregate data, render and analytics logs)
is exactly what it was. -/
theorem c6_malformed_retrieval_is_noop (numOptions : Nat)
    (response : Option InteractiveResponse) (s : WidgetState)
    (h : response = none ∨ ∃ r, response = some r ∧ r.options = none) :
    handleSuccessfulDataRetrieval numOptions response s = s := by
  rcases h with h | ⟨r, hr, ho⟩
  · subst h; rfl
  · subst hr; simp [handleSuccessfulDataRetrieval, ho]

/-- Witness for C6: a payload object without the `options` field, delivered to
a fresh state, is ignored. -/
theorem c6_malformed_retrieval_is_noop_witness :
    ((some (⟨none⟩ : InteractiveResponse) : Option InteractiveResponse) = none ∨
      ∃ r, (some (⟨none⟩ : InteractiveResponse) : Option InteractiveResponse) = some r ∧
        r.options = none) ∧
    handleSuccessfulDataRetrieval 2 (some ⟨none⟩) initState = initState :=
  ⟨Or.inr ⟨⟨none⟩, rfl, rfl⟩,
    c6_malformed_retrieval_is_noop 2 (some ⟨none⟩) initState (Or.inr ⟨⟨none⟩, rfl, rfl⟩)⟩

/-! ## Claim C7: over-provisioned payloads are truncated -/

/-- Claim C7: a well-formed retrieval response with more entries than visible
options stores exactly the first `numOptions` entries as the aggregate data;
everything past that count is discarded (`response['options'].slice(0,
numOptions)`). -/
theorem c7_retrieval_truncates_to_visible_options (numOptions : Nat)
    (entries : List InteractiveOption) (s : WidgetState)
    (h : numOptions < entries.length) :
    (handleSuccessfulDataRetrieval numOptions (some ⟨some entries⟩) s).optionsData
      = some (entries.take numOptions) := by
  simp [handleSuccessfulDataRetrieval, updateComponentOnDataRetrieval_optionsData]

/-- Witness for C7: three remote entries arriving at a two-option widget keep
only the first two. -/
theorem c7_retrieval_truncates_to_visible_options_witness :
    2 < ([⟨0, 4, false⟩, ⟨1, 5, false⟩, ⟨2, 6, false⟩] : List InteractiveOption).length ∧
    (handleSuccessfulDataRetrieval 2
        (some ⟨some [⟨0, 4, false⟩, ⟨1, 5, false⟩, ⟨2, 6, false⟩]⟩) initState).optionsData
      = some ([⟨0, 4, false⟩, ⟨1, 5, false⟩, ⟨2, 6, false⟩].take 2) :=
  ⟨by decide,
    c7_retrieval_truncates_to_visible_options 2 [⟨0, 4, false⟩, ⟨1, 5, false⟩, ⟨2, 6, false⟩]
      initState (by decide)⟩

/-! ## Claim C8: a tap succeeds locally when the backend promise rejected -/

/-- Claim C8: when `backendDataPromise_` has rejected (for example, an invalid
non-HTTP(S) endpoint URL), a tap still succeeds locally through the `.catch`
path: the analytics event fires, the selection locks, the post-selection
render is requested, and the stored aggregate data is untouched — the failure
neither surfaces nor undoes the selection. -/
theorem c8_tap_succeeds_after_rejection (w : Widget) (idx : Nat)
    (hp : w.backendData = .rejected) (hs : w.state.hasUserSelection = false) :
    (step w (.tap idx)).state.analyticsEvents = w.state.analyticsEvents + 1 ∧
    (step w (.tap idx)).state.hasUserSelection = true ∧
    (step w (.tap idx)).state.postSelectionRenders
      = w.state.postSelectionRenders ++ [idx] ∧
    (step w (.tap idx)).state.optionsData = w.state.optionsData := by
  simp [step, hs, hp, handleTapCatch]

/-- Witness for C8: a widget whose retrieval failed (invalid endpoint) still
handles a tap on option 0 locally. -/
theorem c8_tap_succeeds_after_rejection_witness :
    (run (initWidget true 2) [Event.retrievalFailure]).backendData = PromiseStatus.rejected ∧
    (run (initWidget true 2) [Event.retrievalFailure]).state.hasUserSelection = false ∧
    ((step (run (initWidget true 2) [Event.retrievalFailure]) (.tap 0)).state.analyticsEvents
        = (run (initWidget true 2) [Event.retrievalFailure]).state.analyticsEvents + 1 ∧
      (step (run (initWidget true 2) [Event.retrievalFailure]) (.tap 0)).state.hasUserSelection
        = true ∧
      (step (run (initWidget true 2) [Event.retrievalFailure]) (.tap 0)).state.postSelectionRenders
        = (run (initWidget true 2) [Event.retrievalFailure]).state.postSelectionRenders ++ [0] ∧
      (step (run (initWidget true 2) [Event.retrievalFailure]) (.tap 0)).state.optionsData
        = (run (initWidget true 2) [Event.retrievalFailure]).state.optionsData) :=
  ⟨by decide, by decide,
    c8_tap_succeeds_after_rejection (run (initWidget true 2) [Event.retrievalFailure]) 0
      (by decide) (by decide)⟩

/-! ## Single-selection invariant lemmas (for claim C9) -/

theorem filter_length_applySelection (d : List InteractiveOption) (idx : Nat) :
    ((applySelection d idx).filter (fun e => e.selectedByUser)).length
      ≤ (d.filter (fun e => e.selectedByUser)).length + 1 := by
  induction d generalizing idx with
  | nil => simp [applySelection]
  | cons e es ih =>
    cases idx with
    | zero =>
      by_cases h : e.selectedByUser <;>
        simp [applySelection, List.filter_cons, h]
    | succ i =>
      by_cases h : e.selectedByUser <;>
        simpa [applySelection, List.filter_cons, h] using ih i

theorem selectedCount_eq_zero_of_not_any (d : List InteractiveOption)
    (h : d.any (fun e => e.selectedByUser) = false) :
    (d.filter (fun e => e.selectedByUser)).length = 0 := by
  simp only [List.any_eq_false] at h
  simp [List.filter_eq_nil_iff.2 h]

theorem singleSelectionInv_handleTapThen (hasEndpoint : Bool) (idx : Nat)
    (s : WidgetState) (h : SingleSelectionInv s) :
    SingleSelectionInv (handleTapThen hasEndpoint idx s) := by
  by_cases hsel : s.hasUserSelection
  · rwa [handleTapThen_of_hasUserSelection _ _ _ hsel]
  · rw [Bool.not_eq_true] at hsel
    have hzero : selectedCount s = 0 := h.1 hsel
    unfold handleTapThen
    rw [hsel]
    simp only [Bool.false_eq_true, if_false]
    match hd : s.optionsData with
    | none =>
      constructor
      · intro hfalse; simp at hfalse
      · simp [selectedCount, hd] at hzero ⊢
    | some d =>
      simp only []
      split
      · constructor
        · intro hfalse; simp at hfalse
        · simp only [selectedCount, hd] at hzero
          simp only [selectedCount]
          have := filter_length_applySelection d idx
          omega
      · constructor
        · intro hfalse; simp [handleTapCatch] at hfalse
        · simp only [selectedCount, handleTapCatch, hd] at hzero ⊢
          omega

theorem singleSelectionInv_handleTapCatch (idx : Nat) (s : WidgetState)
    (h : SingleSelectionInv s) : SingleSelectionInv (handleTapCatch idx s) := by
  constructor
  · intro hfalse; simp [handleTapCatch] at hfalse
  · have := h.2
    simpa [selectedCount, handleTapCatch] using this

theorem singleSelectionInv_foldl_handleTapThen (hasEndpoint : Bool) (taps : List Nat)
    (s : WidgetState) (h : SingleSelectionInv s) :
    SingleSelectionInv (taps.foldl (fun s i => handleTapThen hasEndpoint i s) s) := by
  induction taps generalizing s with
  | nil => exact h
  | cons t ts ih => exact ih _ (singleSelectionInv_handleTapThen hasEndpoint t s h)

theorem singleSelectionInv_foldl_handleTapCatch (taps : List Nat) (s : WidgetState)
    (h : SingleSelectionInv s) :
    SingleSelectionInv (taps.foldl (fun s i => handleTapCatch i s) s) := by
  induction taps generalizing s with
  | nil => exact h
  | cons t ts ih => exact ih _ (singleSelectionInv_handleTapCatch t s h)

theorem singleSelectionInv_updateComponentOnDataRetrieval (d : List InteractiveOption)
    (s : WidgetState) (hd : (d.filter (fun e => e.selectedByUser)).length ≤ 1) :
    SingleSelectionInv (updateComponentOnDataRetrieval d s) := by
  constructor
  · intro hfalse
    rw [updateComponentOnDataRetrieval_hasUserSelection] at hfalse
    simp only [Bool.or_eq_false_iff] at hfalse
    simp [selectedCount, updateComponentOnDataRetrieval_optionsData,
      selectedCount_eq_zero_of_not_any d hfalse.2]
  · simp [selectedCount, updateComponentOnDataRetrieval_optionsData, hd]

theorem singleSelectionInv_handleSuccessfulDataRetrieval (numOptions : Nat)
    (response : Option InteractiveResponse) (s : WidgetState)
    (h : SingleSelectionInv s) (hok : eventOk (.retrievalSuccess response) = true) :
    SingleSelectionInv (handleSuccessfulDataRetrieval numOptions response s) := by
  match response with
  | none => exact h
  | some r =>
    match hr : r.options with
    | none => simpa [handleSuccessfulDataRetrieval, hr] using h
    | some entries =>
      have hcnt : (entries.filter (fun e => e.selectedByUser)).length ≤ 1 := by
        simpa [eventOk, hr] using hok
      have htake : ((entries.take numOptions).filter (fun e => e.selectedByUser)).length
          ≤ (entries.filter (fun e => e.selectedByUser)).length :=
        ((List.take_sublist numOptions entries).filter _).length_le
      simp only [handleSuccessfulDataRetrieval, hr]
      exact singleSelectionInv_updateComponentOnDataRetrieval _ s (le_trans htake hcnt)

theorem singleSelectionInv_step (w : Widget) (e : Event)
    (h : SingleSelectionInv w.state) (hok : eventOk e = true) :
    SingleSelectionInv (step w e).state := by
  match e with
  | .tap idx =>
    by_cases hsel : w.state.hasUserSelection
    · simpa [step, hsel] using h
    · rw [Bool.not_eq_true] at hsel
      simp only [step, hsel, Bool.false_eq_true, if_false]
      match w.backendData with
      | .pending => exact h
      | .resolved => exact singleSelectionInv_handleTapThen _ idx _ h
      | .rejected => exact singleSelectionInv_handleTapCatch idx _ h
  | .retrievalSuccess response =>
    simp only [step]
    match w.backendData with
    | .pending =>
      exact singleSelectionInv_foldl_handleTapThen _ _ _
        (singleSelectionInv_handleSuccessfulDataRetrieval _ response _ h hok)
    | .resolved => exact h
    | .rejected => exact h
  | .retrievalFailure =>
    simp only [step]
    match w.backendData with
    | .pending => exact singleSelectionInv_foldl_handleTapCatch _ _ h
    | .resolved => exact h
    | .rejected => exact h

theorem singleSelectionInv_run (events : List Event) (w : Widget)
    (h : SingleSelectionInv w.state) (hok : ∀ e ∈ events, eventOk e = true) :
    SingleSelectionInv (run w events).state := by
  induction events generalizing w with
  | nil => exact h
  | cons e es ih =>
    exact ih (step w e) (singleSelectionInv_step w e h (hok e (by simp)))
      (fun e' he' => hok e' (by simp [he']))

/-! ## Claim C9: at most one `selectedByUser` entry -/

/-- Counterexample to claim C9 as stated: a retrieval payload carrying two
`selectedByUser` entries is stored verbatim, so a reachable state holds two
flagged aggregate entries. -/
theorem c9_counterexample :
    selectedCount
      (run (initWidget true 2)
        [Event.retrievalSuccess (some ⟨some [⟨0, 1, true⟩, ⟨1, 1, true⟩]⟩)]).state = 2 := by
  decide

/-- Claim C9 as amended: provided every retrieval payload itself carries at
most one `selectedByUser` entry, every state reachable from a fresh widget by
any interleaving of taps and retrieval settlements has at most one stored
entry flagged `selectedByUser`. -/
theorem c9_amended_single_selection (hasEndpoint : Bool) (numOptions : Nat)
    (events : List Event) (hok : ∀ e ∈ events, eventOk e = true) :
    selectedCount (run (initWidget hasEndpoint numOptions) events).state ≤ 1 :=
  (singleSelectionInv_run events (initWidget hasEndpoint numOptions)
    ⟨fun _ => rfl, by simp [initWidget, initState, selectedCount]⟩ hok).2

/-- Witness for the amended C9: a tap races a single-selection payload; the
final state keeps at most one flagged entry. -/
theorem c9_amended_single_selection_witness :
    (∀ e ∈ [Event.tap 0,
        Event.retrievalSuccess (some ⟨some [⟨0, 3, false⟩, ⟨1, 4, true⟩]⟩),
        Event.tap 1], eventOk e = true) ∧
    selectedCount
      (run (initWidget true 2)
        [Event.tap 0,
          Event.retrievalSuccess (some ⟨some [⟨0, 3, false⟩, ⟨1, 4, true⟩]⟩),
          Event.tap 1]).state ≤ 1 :=
  ⟨by decide,
    c9_amended_single_selection true 2
      [Event.tap 0,
        Event.retrievalSuccess (some ⟨some [⟨0, 3, false⟩, ⟨1, 4, true⟩]⟩),
        Event.tap 1] (by decide)⟩

/-! ## Claim C3: tap racing the initial retrieval -/

/-- Counterexample to claim C3.  On a fresh endpoint widget, a tap on option 0
while the retrieval is pending does NOT lock the selection (the continuation is
queued on `backendDataPromise_`), and when the retrieval then resolves with
`selectedByUser` on option 1, the final state reflects the REMOTE entry: the
post-selection render is for option 1, no analytics event ever fires for the
user's tap, and the stored data is the remote payload untouched by the tap. -/
theorem c3_counterexample :
    (step (initWidget true 2) (.tap 0)).state.hasUserSelection = false ∧
    (run (initWidget true 2)
        [Event.tap 0, Event.retrievalSuccess (some ⟨some [⟨0, 5, false⟩, ⟨1, 7, true⟩]⟩)]
      ).state.postSelectionRenders = [1] ∧
    (run (initWidget true 2)
        [Event.tap 0, Event.retrievalSuccess (some ⟨some [⟨0, 5, false⟩, ⟨1, 7, true⟩]⟩)]
      ).state.analyticsEvents = 0 ∧
    (run (initWidget true 2)
        [Event.tap 0, Event.retrievalSuccess (some ⟨some [⟨0, 5, false⟩, ⟨1, 7, true⟩]⟩)]
      ).state.optionsData = some [⟨0, 5, false⟩, ⟨1, 7, true⟩] := by
  decide

/-- Claim C3 as amended: a tap that occurs before the initial retrieval
resolves does not change the observable state at all — its handler is deferred
on `backendDataPromise_`.  When the retrieval later resolves with a
`selectedByUser` entry among the visible options, the remote entry wins: the
selection locks from the remote data, the deferred tap is dropped without an
analytics event, and the stored aggregate is the remote payload unchanged by
the tap. -/
theorem c3_amended_remote_selection_wins (w : Widget) (idx : Nat)
    (r : InteractiveResponse) (entries : List InteractiveOption)
    (hp : w.backendData = .pending) (hs : w.state.hasUserSelection = false)
    (hq : w.pendingTaps = []) (hr : r.options = some entries)
    (hsel : (entries.take w.numOptions).any (fun e => e.selectedByUser) = true) :
    (step w (.tap idx)).state = w.state ∧
    (run w [.tap idx, .retrievalSuccess (some r)]).state.hasUserSelection = true ∧
    (run w [.tap idx, .retrievalSuccess (some r)]).state.analyticsEvents
      = w.state.analyticsEvents ∧
    (run w [.tap idx, .retrievalSuccess (some r)]).state.optionsData
      = some (entries.take w.numOptions) := by
  have hstep : step w (.tap idx) = { w with pendingTaps := w.pendingTaps ++ [idx] } := by
    simp [step, hs, hp]
  have hsel' :
      (handleSuccessfulDataRetrieval w.numOptions (some r) w.state).hasUserSelection = true := by
    simp [handleSuccessfulDataRetrieval, hr,
      updateComponentOnDataRetrieval_hasUserSelection, hsel]
  have hfinal : run w [.tap idx, .retrievalSuccess (some r)]
      = { w with state := handleSuccessfulDataRetrieval w.numOptions (some r) w.state,
                 backendData := .resolved, pendingTaps := [] } := by
    show step (step w (.tap idx)) (.retrievalSuccess (some r)) = _
    rw [hstep]
    simp [step, hp, hq, handleTapThen_of_hasUserSelection _ _ _ hsel']
  refine ⟨by rw [hstep], ?_, ?_, ?_⟩
  · rw [hfinal]; exact hsel'
  · rw [hfinal]
    simp [handleSuccessfulDataRetrieval, hr, updateComponentOnDataRetrieval_analyticsEvents]
  · rw [hfinal]
    simp [handleSuccessfulDataRetrieval, hr, updateComponentOnDataRetrieval_optionsData]

/-- Witness for the amended C3: tap on option 0 races a retrieval whose
payload says option 1 was already selected by this user. -/
theorem c3_amended_remote_selection_wins_witness :
    ((initWidget true 2).backendData = PromiseStatus.pending ∧
      (initWidget true 2).state.hasUserSelection = false ∧
      (initWidget true 2).pendingTaps = [] ∧
      (⟨some [⟨0, 5, false⟩, ⟨1, 7, true⟩]⟩ : InteractiveResponse).options
        = some [⟨0, 5, false⟩, ⟨1, 7, true⟩] ∧
      (([⟨0, 5, false⟩, ⟨1, 7, true⟩] : List InteractiveOption).take
          (initWidget true 2).numOptions).any (fun e => e.selectedByUser) = true) ∧
    ((step (initWidget true 2) (.tap 0)).state = (initWidget true 2).state ∧
      (run (initWidget true 2)
          [.tap 0, .retrievalSuccess (some ⟨some [⟨0, 5, false⟩, ⟨1, 7, true⟩]⟩)]
        ).state.hasUserSelection = true ∧
      (run (initWidget true 2)
          [.tap 0, .retrievalSuccess (some ⟨some [⟨0, 5, false⟩, ⟨1, 7, true⟩]⟩)]
        ).state.analyticsEvents = (initWidget true 2).state.analyticsEvents ∧
      (run (initWidget true 2)
          [.tap 0, .retrievalSuccess (some ⟨some [⟨0, 5, false⟩, ⟨1, 7, true⟩]⟩)]
        ).state.optionsData
        = some (([⟨0, 5, false⟩, ⟨1, 7, true⟩] : List InteractiveOption).take
            (initWidget true 2).numOptions)) :=
  ⟨⟨by decide, by decide, by decide, by decide, by decide⟩,
    c3_amended_remote_selection_wins (initWidget true 2) 0
      ⟨some [⟨0, 5, false⟩, ⟨1, 7, true⟩]⟩ [⟨0, 5, false⟩, ⟨1, 7, true⟩]
      (by decide) (by decide) (by decide) (by decide) (by decide)⟩

/-! ## Arithmetic lemmas for the apportionment engine -/

theorem rawPercentage_le (t k : Nat) (ht : 0 < t) (hk : k ≤ t) :
    rawPercentage t k ≤ 10000 := by
  unfold rawPercentage
  have h1 : (20000 * k + t) / (2 * t) ≤ (2 * t * 10000 + t) / (2 * t) := by
    apply Nat.div_le_div_right
    have : 20000 * k ≤ 20000 * t := Nat.mul_le_mul_left _ hk
    omega
  have h2 : (2 * t * 10000 + t) / (2 * t) = 10000 + t / (2 * t) :=
    Nat.mul_add_div (by omega) _ _
  have h3 : t / (2 * t) = 0 := Nat.div_eq_of_lt (by omega)
  omega

theorem adjustPercentage_le (c : Nat) : adjustPercentage c ≤ c := by
  unfold adjustPercentage
  omega

theorem mathRound_adjustPercentage (c : Nat) :
    mathRound (adjustPercentage c) = c / 100 := by
  unfold mathRound adjustPercentage
  omega

theorem div_100_le_mathRound (c : Nat) : c / 100 ≤ mathRound c := by
  unfold mathRound
  omega

theorem mathRound_le (c : Nat) (h : c ≤ 10000) : mathRound c ≤ 100 := by
  unfold mathRound
  omega

theorem floorSum_aux_bound (t : Nat) (m : List Nat) :
    200 * t * ((m.map (fun k => (20000 * k + t) / (200 * t))).sum)
      ≤ 20000 * m.sum + t * m.length := by
  induction m with
  | nil => simp
  | cons k ks ih =>
    simp only [List.map_cons, List.sum_cons, List.length_cons]
    have h1 : 200 * t * ((20000 * k + t) / (200 * t)) ≤ 20000 * k + t := by
      rw [Nat.mul_comm]
      exact Nat.div_mul_le_self _ _
    calc 200 * t * ((20000 * k + t) / (200 * t)
            + (ks.map (fun k => (20000 * k + t) / (200 * t))).sum)
        = 200 * t * ((20000 * k + t) / (200 * t))
            + 200 * t * (ks.map (fun k => (20000 * k + t) / (200 * t))).sum := by ring
      _ ≤ (20000 * k + t) + (20000 * ks.sum + t * ks.length) := Nat.add_le_add h1 ih
      _ = 20000 * (k + ks.sum) + t * (ks.length + 1) := by ring

theorem floorSum_aux_count (t : Nat) (m : List Nat)
    (hm : ∀ k ∈ m, 200 * t ≤ 20000 * k + t) :
    m.length * (199 * t) ≤ 20000 * m.sum := by
  induction m with
  | nil => simp
  | cons k ks ih =>
    simp only [List.sum_cons, List.length_cons]
    have h1 : 199 * t ≤ 20000 * k := by
      have := hm k (List.mem_cons_self _ _)
      omega
    have h2 := ih (fun x hx => hm x (List.mem_cons_of_mem _ hx))
    calc (ks.length + 1) * (199 * t) = ks.length * (199 * t) + 199 * t := by ring
      _ ≤ 20000 * ks.sum + 20000 * k := Nat.add_le_add h2 h1
      _ = 20000 * (k + ks.sum) := by ring

theorem filter_sum_le (m : List Nat) (p : Nat → Bool) : (m.filter p).sum ≤ m.sum := by
  induction m with
  | nil => simp
  | cons k ks ih =>
    rw [List.filter_cons]
    by_cases h : p k <;> simp [h, List.sum_cons] <;> omega

theorem floorSum_eq_filter (t : Nat) (m : List Nat) :
    ((m.map (fun k => (20000 * k + t) / (200 * t))).sum)
      = (((m.filter (fun k => 200 * t ≤ 20000 * k + t)).map
          (fun k => (20000 * k + t) / (200 * t))).sum) := by
  induction m with
  | nil => simp
  | cons k ks ih =>
    rw [List.filter_cons]
    by_cases h : 200 * t ≤ 20000 * k + t
    · rw [if_pos (by simpa using h)]
      simp only [List.map_cons, List.sum_cons]
      omega
    · have hz : (20000 * k + t) / (200 * t) = 0 := Nat.div_eq_of_lt (by omega)
      rw [if_neg (by simpa using h)]
      simp only [List.map_cons, List.sum_cons, hz]
      omega

theorem floorSum_le_100 (counts : List Nat) (ht : 0 < counts.sum) :
    (counts.map (fun k => rawPercentage counts.sum k / 100)).sum ≤ 100 := by
  set t := counts.sum with hT
  have hdiv : ∀ k : Nat, rawPercentage t k / 100 = (20000 * k + t) / (200 * t) := by
    intro k
    unfold rawPercentage
    rw [Nat.div_div_eq_div_mul]
    congr 1
    ring
  rw [List.map_congr_left (fun k _ => hdiv k)]
  set S := counts.filter (fun k => 200 * t ≤ 20000 * k + t) with hS
  have hmem : ∀ k ∈ S, 200 * t ≤ 20000 * k + t := by
    intro k hk
    have := List.of_mem_filter hk
    exact of_decide_eq_true this
  have hSsum : S.sum ≤ t := hT ▸ filter_sum_le counts _
  have hcount : S.length * (199 * t) ≤ 20000 * S.sum := floorSum_aux_count t S hmem
  have hcount' : S.length * 199 ≤ 20000 := by
    have h1 : (S.length * 199) * t ≤ 20000 * t := by
      calc (S.length * 199) * t = S.length * (199 * t) := by ring
        _ ≤ 20000 * S.sum := hcount
        _ ≤ 20000 * t := Nat.mul_le_mul_left _ hSsum
    exact Nat.le_of_mul_le_mul_right h1 ht
  have hglen : S.length ≤ 100 := by omega
  have hbound := floorSum_aux_bound t S
  have hmain : 200 * t * ((S.map (fun k => (20000 * k + t) / (200 * t))).sum) ≤ 20100 * t := by
    calc 200 * t * ((S.map (fun k => (20000 * k + t) / (200 * t))).sum)
        ≤ 20000 * S.sum + t * S.length := hbound
      _ ≤ 20000 * t + t * 100 := by
          have := Nat.mul_le_mul_left 20000 hSsum
          have := Nat.mul_le_mul_left t hglen
          omega
      _ = 20100 * t := by ring
  have hF : (S.map (fun k => (20000 * k + t) / (200 * t))).sum ≤ 100 := by
    have h1 : ((S.map (fun k => (20000 * k + t) / (200 * t))).sum * 200) * t ≤ 20100 * t := by
      calc ((S.map (fun k => (20000 * k + t) / (200 * t))).sum * 200) * t
          = 200 * t * ((S.map (fun k => (20000 * k + t) / (200 * t))).sum) := by ring
        _ ≤ 20100 * t := hmain
    have h2 := Nat.le_of_mul_le_mul_right h1 ht
    omega
  rw [floorSum_eq_filter t counts]
  exact hF

/-! ## Pipeline lemmas for the apportionment engine -/

theorem rawPercentages_eq_map (optionsData : List InteractiveOption) :
    rawPercentages optionsData
      = (optionsData.map (fun e => e.totalCount)).map
          (rawPercentage (totalResponseCount optionsData)) := by
  simp [rawPercentages, List.map_map, Function.comp]

theorem rawPercentages_length (optionsData : List InteractiveOption) :
    (rawPercentages optionsData).length = optionsData.length := by
  simp [rawPercentages]

theorem correctedPercentages_length (optionsData : List InteractiveOption) :
    (correctedPercentages optionsData).length = optionsData.length := by
  unfold correctedPercentages overshootCorrect
  split <;> simp [rawPercentages]

theorem rawPercentages_mem_le (optionsData : List InteractiveOption)
    (h : 0 < totalResponseCount optionsData) :
    ∀ c ∈ rawPercentages optionsData, c ≤ 10000 := by
  intro c hc
  rw [rawPercentages] at hc
  obtain ⟨e, he, rfl⟩ := List.mem_map.1 hc
  apply rawPercentage_le _ _ h
  exact List.single_le_sum (fun x _ => Nat.zero_le x) _
    (List.mem_map.2 ⟨e, he, rfl⟩)

theorem correctedPercentages_mem_le (optionsData : List InteractiveOption)
    (h : 0 < totalResponseCount optionsData) :
    ∀ c ∈ correctedPercentages optionsData, c ≤ 10000 := by
  intro c hc
  unfold correctedPercentages overshootCorrect at hc
  split at hc
  · obtain ⟨c', hc', rfl⟩ := List.mem_map.1 hc
    exact le_trans (adjustPercentage_le c') (rawPercentages_mem_le optionsData h c' hc')
  · exact rawPercentages_mem_le optionsData h c hc

theorem correctedTotal_le (optionsData : List InteractiveOption)
    (h : 0 < totalResponseCount optionsData) :
    correctedTotal optionsData ≤ 100 := by
  unfold correctedTotal correctedPercentages overshootCorrect
  split
  · have hmap : ((rawPercentages optionsData).map adjustPercentage).map mathRound
        = (rawPercentages optionsData).map (fun c => c / 100) := by
      rw [List.map_map]
      exact List.map_congr_left (fun c _ => mathRound_adjustPercentage c)
    rw [hmap, rawPercentages_eq_map, List.map_map]
    have h' : 0 < (optionsData.map (fun e => e.totalCount)).sum := h
    simpa [Function.comp, totalResponseCount] using
      floorSum_le_100 (optionsData.map (fun e => e.totalCount)) h'
  · omega

theorem floor_sum_le_correctedTotal (optionsData : List InteractiveOption) :
    ((correctedPercentages optionsData).map (fun c => c / 100)).sum
      ≤ correctedTotal optionsData := by
  unfold correctedTotal
  exact List.sum_le_sum (fun c _ => div_100_le_mathRound c)

/-! ## Sorting and largest-remainder loop lemmas -/

theorem insertObj_perm (x : PercentageObj) (l : List PercentageObj) :
    (insertObj x l).Perm (x :: l) := by
  induction l with
  | nil => exact List.Perm.refl _
  | cons y ys ih =>
    rw [insertObj]
    split
    · exact List.Perm.refl _
    · exact (ih.cons y).trans (List.Perm.swap x y ys)

theorem sortObjs_perm (l : List PercentageObj) : (sortObjs l).Perm l := by
  induction l with
  | nil => exact List.Perm.refl _
  | cons x xs ih =>
    exact (insertObj_perm x (sortObjs xs)).trans (ih.cons x)

theorem toPercentageObjs_map_originalIndex (i : Nat) (ps : List Nat) :
    (toPercentageObjs i ps).map (fun e => e.originalIndex) = List.range' i ps.length := by
  induction ps generalizing i with
  | nil => rfl
  | cons c cs ih => simp [toPercentageObjs, List.range'_succ, ih]

theorem toPercentageObjs_map_value (i : Nat) (ps : List Nat) :
    (toPercentageObjs i ps).map (fun e => e.value) = ps := by
  induction ps generalizing i with
  | nil => rfl
  | cons c cs ih => simp [toPercentageObjs, ih]

theorem toPercentageObjs_mem (i : Nat) (ps : List Nat) (e : PercentageObj)
    (he : e ∈ toPercentageObjs i ps) :
    e.remainder = e.value % 100 ∧ e.value ∈ ps := by
  induction ps generalizing i with
  | nil => cases he
  | cons c cs ih =>
    rw [toPercentageObjs] at he
    rcases List.mem_cons.1 he with h | h
    · subst h; exact ⟨rfl, List.mem_cons_self _ _⟩
    · obtain ⟨h1, h2⟩ := ih (i + 1) h
      exact ⟨h1, List.mem_cons_of_mem _ h2⟩

theorem filter_not_top_eq (top : PercentageObj) (rest : List PercentageObj) :
    (top :: rest).filter (fun e => !(e.value == top.value))
      = rest.filter (fun e => !(e.value == top.value)) := by
  simp [List.filter_cons]

theorem filter_not_top_length (top : PercentageObj) (rest : List PercentageObj) :
    ((top :: rest).filter (fun e => !(e.value == top.value))).length ≤ rest.length := by
  rw [filter_not_top_eq]
  exact List.length_filter_le _ _

theorem distributeLoop_fuel_irrelevant (f1 f2 : Nat) (R : Int) (l : List PercentageObj)
    (h1 : l.length ≤ f1) (h2 : l.length ≤ f2) :
    distributeLoop f1 R l = distributeLoop f2 R l := by
  induction f1 generalizing f2 R l with
  | zero =>
    have hl : l = [] := List.length_eq_zero.1 (Nat.le_zero.1 h1)
    subst hl
    cases f2 <;> rfl
  | succ f ih =>
    cases l with
    | nil => cases f2 <;> rfl
    | cons top rest =>
      cases f2 with
      | zero => simp at h2
      | succ f2' =>
        simp only [distributeLoop]
        split
        · have hlen : ((top :: rest).filter (fun e => !(e.value == top.value))).length ≤ f := by
            have := filter_not_top_length top rest
            simp only [List.length_cons] at h1
            omega
          have hlen2 : ((top :: rest).filter (fun e => !(e.value == top.value))).length ≤ f2' := by
            have := filter_not_top_length top rest
            simp only [List.length_cons] at h2
            omega
          rw [ih _ _ _ hlen hlen2]
        · rfl

theorem distributeLoop_keys_perm (fuel : Nat) (R : Int) (l : List PercentageObj)
    (h : l.length ≤ fuel) :
    ((distributeLoop fuel R l).map Prod.fst).Perm (l.map (fun e => e.originalIndex)) := by
  induction fuel generalizing R l with
  | zero =>
    have hl : l = [] := List.length_eq_zero.1 (Nat.le_zero.1 h)
    subst hl
    simp [distributeLoop]
  | succ f ih =>
    cases l with
    | nil => simp [distributeLoop]
    | cons top rest =>
      simp only [distributeLoop]
      split
      · have hlen : ((top :: rest).filter (fun e => !(e.value == top.value))).length ≤ f := by
          have := filter_not_top_length top rest
          simp only [List.length_cons] at h
          omega
        have hsplit : (((top :: rest).filter (fun e => e.value == top.value))
              ++ ((top :: rest).filter (fun e => !(e.value == top.value)))).Perm
            (top :: rest) := List.filter_append_perm _ _
        refine List.Perm.trans ?_ (hsplit.map (fun e => e.originalIndex))
        rw [List.map_append, List.map_append, List.map_map]
        exact List.Perm.append_left _ (ih _ _ hlen)
      · rw [List.map_map]
        exact List.Perm.refl _

theorem distributeLoop_values_le (fuel : Nat) (R : Int) (l : List PercentageObj)
    (hwf : ∀ e ∈ l, e.remainder = e.value % 100) (hv : ∀ e ∈ l, e.value ≤ 10000) :
    ∀ p ∈ distributeLoop fuel R l, p.2 ≤ 100 := by
  induction fuel generalizing R l with
  | zero =>
    intro p hp
    rw [distributeLoop] at hp
    obtain ⟨e, he, rfl⟩ := List.mem_map.1 hp
    have := hv e he
    simp only []
    omega
  | succ f ih =>
    intro p hp
    cases l with
    | nil => rw [distributeLoop] at hp; cases hp
    | cons top rest =>
      rw [distributeLoop] at hp
      split at hp
      · rcases List.mem_append.1 hp with hmem | hmem
        · obtain ⟨e, he, rfl⟩ := List.mem_map.1 hmem
          have heval : e.value = top.value := by
            have := List.of_mem_filter he
            simpa using this
          have he' : e ∈ top :: rest := List.mem_of_mem_filter he
          have hv' := hv e he'
          simp only []
          split
          · rename_i htr
            have htop_rem : top.remainder ≠ 0 := by
              rw [Bool.and_eq_true] at htr
              simpa using htr.2
            have htop_mem : top ∈ top :: rest := List.mem_cons_self _ _
            have : e.value % 100 ≠ 0 := by
              rw [heval, ← hwf top htop_mem]
              exact htop_rem
            omega
          · omega
        · refine ih _ _ ?_ ?_ p hmem
          · intro e he
            exact hwf e (List.mem_of_mem_filter he)
          · intro e he
            exact hv e (List.mem_of_mem_filter he)
      · obtain ⟨e, he, rfl⟩ := List.mem_map.1 hp
        have := hv e he
        simp only []
        omega

theorem sum_map_add_one (l : List PercentageObj) (g : PercentageObj → Nat) :
    (l.map (fun e => g e + 1)).sum = (l.map g).sum + l.length := by
  induction l with
  | nil => rfl
  | cons e es ih => simp only [List.map_cons, List.sum_cons, List.length_cons]; omega

theorem filter_partition_sum (top : PercentageObj) (rest : List PercentageObj)
    (g : PercentageObj → Nat) :
    (((top :: rest).filter (fun e => e.value == top.value)).map g).sum
        + (((top :: rest).filter (fun e => !(e.value == top.value))).map g).sum
      = ((top :: rest).map g).sum := by
  have hsplit : (((top :: rest).filter (fun e => e.value == top.value))
        ++ ((top :: rest).filter (fun e => !(e.value == top.value)))).Perm
      (top :: rest) := List.filter_append_perm _ _
  have := (hsplit.map g).sum_eq
  rw [List.map_append, List.sum_append] at this
  exact this

theorem distributeLoop_sum_le (fuel : Nat) (R : Int) (l : List PercentageObj)
    (h : l.length ≤ fuel) :
    ((distributeLoop fuel R l).map Prod.snd).sum
      ≤ (l.map (fun e => e.value / 100)).sum + R.toNat := by
  induction fuel generalizing R l with
  | zero =>
    have hl : l = [] := List.length_eq_zero.1 (Nat.le_zero.1 h)
    subst hl
    simp [distributeLoop]
  | succ f ih =>
    cases l with
    | nil => simp [distributeLoop]
    | cons top rest =>
      rw [distributeLoop]
      split
      · rename_i hpos
        have hlen : ((top :: rest).filter (fun e => !(e.value == top.value))).length ≤ f := by
          have := filter_not_top_length top rest
          simp only [List.length_cons] at h
          omega
        rw [List.map_append, List.sum_append, List.map_map]
        split
        · rename_i htr
          have hties : ((((top :: rest).filter
                (fun e => e.value == top.value)).length : Int)) ≤ R := by
            rw [Bool.and_eq_true] at htr
            exact of_decide_eq_true htr.1
          have hrec := ih (R - ((top :: rest).filter
              (fun e => e.value == top.value)).length) _ hlen
          have hmap : ((top :: rest).filter (fun e => e.value == top.value)).map
                (Prod.snd ∘ fun e => (e.originalIndex, e.value / 100 + 1))
              = ((top :: rest).filter (fun e => e.value == top.value)).map
                (fun e => e.value / 100 + 1) := rfl
          rw [hmap, sum_map_add_one]
          have hpart := filter_partition_sum top rest (fun e => e.value / 100)
          omega
        · have hrec := ih R _ hlen
          have hmap : ((top :: rest).filter (fun e => e.value == top.value)).map
                (Prod.snd ∘ fun e => (e.originalIndex, e.value / 100 + 0))
              = ((top :: rest).filter (fun e => e.value == top.value)).map
                (fun e => e.value / 100) := by
            simp
          rw [hmap]
          have hpart := filter_partition_sum top rest (fun e => e.value / 100)
          omega
      · rw [List.map_map]
        have hmap : (top :: rest).map (Prod.snd ∘ fun e => (e.originalIndex, e.value / 100))
            = (top :: rest).map (fun e => e.value / 100) := rfl
        rw [hmap]
        omega

/-! ## Association-list gathering lemmas -/

theorem lookup_isSome_of_mem_keys (assoc : List (Nat × Nat)) (i : Nat)
    (h : i ∈ assoc.map Prod.fst) : (assoc.lookup i).isSome = true := by
  induction assoc with
  | nil => cases h
  | cons kv tl ih =>
    obtain ⟨k, v⟩ := kv
    rw [List.map_cons] at h
    rcases List.mem_cons.1 h with h | h
    · subst h
      simp [List.lookup]
    · by_cases hik : i = k
      · subst hik; simp [List.lookup]
      · rw [List.lookup]
        have : (i == k) = false := beq_eq_false_iff_ne.2 hik
        rw [this]
        exact ih h

theorem lookup_getD_perm (assoc : List (Nat × Nat)) (ks : List Nat)
    (hnd : (assoc.map Prod.fst).Nodup) (hperm : ks.Perm (assoc.map Prod.fst)) :
    (ks.map (fun i => ((assoc.lookup i).getD 0))).Perm (assoc.map Prod.snd) := by
  induction assoc generalizing ks with
  | nil =>
    have : ks = [] := hperm.eq_nil
    subst this
    exact List.Perm.refl _
  | cons kv tl ih =>
    obtain ⟨k, v⟩ := kv
    rw [List.map_cons] at hperm hnd
    have hk : k ∈ ks := hperm.mem_iff.2 (List.mem_cons_self _ _)
    have hks : ks.Perm (k :: ks.erase k) := List.perm_cons_erase hk
    have herase : (ks.erase k).Perm (tl.map Prod.fst) := by
      have h1 := hperm.erase k
      rwa [List.erase_cons_head] at h1
    have hknotin : k ∉ tl.map Prod.fst := (List.nodup_cons.1 hnd).1
    have htl_nd : (tl.map Prod.fst).Nodup := (List.nodup_cons.1 hnd).2
    have hmap_eq : (ks.erase k).map (fun i => ((((k, v) :: tl).lookup i).getD 0))
        = (ks.erase k).map (fun i => ((tl.lookup i).getD 0)) := by
      apply List.map_congr_left
      intro i hi
      have hi' : i ∈ tl.map Prod.fst := herase.mem_iff.1 hi
      have hne : (i == k) = false := beq_eq_false_iff_ne.2 (fun h => hknotin (h ▸ hi'))
      rw [List.lookup, hne]
    have hhead : ((((k, v) :: tl).lookup k).getD 0) = v := by
      simp [List.lookup]
    refine List.Perm.trans (hks.map _) ?_
    rw [List.map_cons, hhead, hmap_eq, List.map_cons]
    exact (ih _ htl_nd herase).cons v

/-! ## Assembling the loop branch of `preprocessPercentages` -/

theorem finalAssignments_keys_perm (optionsData : List InteractiveOption) :
    ((finalAssignments optionsData).map Prod.fst).Perm (List.range optionsData.length) := by
  unfold finalAssignments
  refine (distributeLoop_keys_perm _ _ _ (le_refl _)).trans ?_
  refine ((sortObjs_perm _).map _).trans ?_
  rw [toPercentageObjs_map_originalIndex, correctedPercentages_length,
    ← List.range_eq_range']

theorem sortedObjs_mem (optionsData : List InteractiveOption) (e : PercentageObj)
    (he : e ∈ sortedObjs optionsData) :
    e.remainder = e.value % 100 ∧ e.value ∈ correctedPercentages optionsData := by
  have he' : e ∈ toPercentageObjs 0 (correctedPercentages optionsData) :=
    (sortObjs_perm _).mem_iff.1 he
  exact toPercentageObjs_mem 0 _ e he'

theorem sortedObjs_floor_sum (optionsData : List InteractiveOption) :
    ((sortedObjs optionsData).map (fun e => e.value / 100)).sum
      = ((correctedPercentages optionsData).map (fun c => c / 100)).sum := by
  unfold sortedObjs
  have h := ((sortObjs_perm (toPercentageObjs 0
      (correctedPercentages optionsData))).map (fun e => e.value / 100)).sum_eq
  rw [h]
  have h2 : (toPercentageObjs 0 (correctedPercentages optionsData)).map
        (fun e => e.value / 100)
      = ((toPercentageObjs 0 (correctedPercentages optionsData)).map
          (fun e => e.value)).map (fun v => v / 100) := by
    rw [List.map_map]
    rfl
  rw [h2, toPercentageObjs_map_value]

/-! ## The overshoot adjustment against the spec's rational formula -/

theorem adjustPercentage_spec (c : Nat) :
    adjustPercentage c
      = ⌊(100 * specAdjustedPercentage ((c : ℚ) / 100) + 1 / 2 : ℚ)⌋₊ := by
  have hfloor : ⌊((c : ℚ) / 100)⌋ = ((c / 100 : Nat) : Int) := by
    rw [Int.floor_eq_iff]
    constructor
    · rw [Int.cast_natCast, le_div_iff₀ (by norm_num : (0:ℚ) < 100)]
      exact_mod_cast Nat.div_mul_le_self c 100
    · rw [Int.cast_natCast, div_lt_iff₀ (by norm_num : (0:ℚ) < 100)]
      have hlt : c < (c / 100 + 1) * 100 := by omega
      exact_mod_cast hlt
  have hsub : 4 * (c % 100) ≤ 6 * c := by omega
  have hcast : ((6 * c - 4 * (c % 100) + 3 : Nat) : ℚ)
      = 6 * (c : ℚ) - 4 * ((c % 100 : Nat) : ℚ) + 3 := by
    rw [Nat.cast_add, Nat.cast_sub hsub, Nat.cast_mul, Nat.cast_mul]
    norm_num
  have hkey : (100 * specAdjustedPercentage ((c : ℚ) / 100) + 1 / 2 : ℚ)
      = ((6 * c - 4 * (c % 100) + 3 : Nat) : ℚ) / ((6 : Nat) : ℚ) := by
    unfold specAdjustedPercentage
    rw [hfloor, Int.cast_natCast, hcast]
    have hqr : (c : ℚ) = 100 * ((c / 100 : Nat) : ℚ) + ((c % 100 : Nat) : ℚ) := by
      exact_mod_cast (Nat.div_add_mod c 100).symm
    rw [hqr]
    push_cast
    ring
  have hfin : ⌊(100 * specAdjustedPercentage ((c : ℚ) / 100) + 1 / 2 : ℚ)⌋₊
      = (6 * c - 4 * (c % 100) + 3) / 6 := by
    rw [hkey, Nat.floor_div_nat, Nat.floor_natCast]
  rw [hfin]
  rfl

/-! ## Claim C1: shape of the percentage vector -/

/-- Counterexample to claim C1 as stated: for counts `[1, 1, 1]` (total 3,
positive) each raw percentage is 33.33, the 3-way tie group cannot fit into
the remainder budget of 1, and the engine returns `[33, 33, 33]`, whose sum
is 99, not 100. -/
theorem c1_counterexample :
    0 < totalResponseCount [⟨0, 1, false⟩, ⟨1, 1, false⟩, ⟨2, 1, false⟩] ∧
    ¬ ((preprocessPercentages [⟨0, 1, false⟩, ⟨1, 1, false⟩, ⟨2, 1, false⟩]).sum = 100) := by
  decide

/-- Claim C1 as amended: for every input with positive total, the percentage
vector has the same length as the input and every entry lies in `[0, 100]`,
but the entries sum to AT MOST 100 — the sum can fall short of 100 when a tie
group is too large for the remaining budget (the lower bound 0 holds because
the values are naturals). -/
theorem c1_amended_percentage_vector (optionsData : List InteractiveOption)
    (h : 0 < totalResponseCount optionsData) :
    (preprocessPercentages optionsData).length = optionsData.length ∧
    (∀ v ∈ preprocessPercentages optionsData, v ≤ 100) ∧
    (preprocessPercentages optionsData).sum ≤ 100 := by
  by_cases hc : correctedTotal optionsData = 100
  · rw [preprocessPercentages, if_pos hc]
    refine ⟨?_, ?_, ?_⟩
    · rw [List.length_map, correctedPercentages_length]
    · intro v hv
      obtain ⟨c, hcmem, rfl⟩ := List.mem_map.1 hv
      exact mathRound_le c (correctedPercentages_mem_le optionsData h c hcmem)
    · have hct : ((correctedPercentages optionsData).map mathRound).sum
          = correctedTotal optionsData := rfl
      omega
  · rw [preprocessPercentages, if_neg hc]
    have hkeys := finalAssignments_keys_perm optionsData
    have hnd : ((finalAssignments optionsData).map Prod.fst).Nodup :=
      hkeys.nodup_iff.2 (List.nodup_range _)
    have hperm := lookup_getD_perm (finalAssignments optionsData)
      (List.range optionsData.length) hnd hkeys.symm
    refine ⟨by simp, ?_, ?_⟩
    · intro v hv
      have hv' : v ∈ (finalAssignments optionsData).map Prod.snd := hperm.subset hv
      obtain ⟨p, hp, rfl⟩ := List.mem_map.1 hv'
      refine distributeLoop_values_le _ _ _ ?_ ?_ p hp
      · intro e he
        exact (sortedObjs_mem optionsData e he).1
      · intro e he
        exact correctedPercentages_mem_le optionsData h _ (sortedObjs_mem optionsData e he).2
    · rw [hperm.sum_eq]
      have hsum := distributeLoop_sum_le (sortedObjs optionsData).length
        (remainderBudget optionsData) (sortedObjs optionsData) (le_refl _)
      have hle100 := correctedTotal_le optionsData h
      have hfloor1 := sortedObjs_floor_sum optionsData
      have hfloor2 := floor_sum_le_correctedTotal optionsData
      have htoNat : (remainderBudget optionsData).toNat
          = 100 - correctedTotal optionsData := by
        unfold remainderBudget
        omega
      unfold finalAssignments
      omega

/-- Witness for the amended C1 at counts `[3, 1]` (total 4). -/
theorem c1_amended_percentage_vector_witness :
    0 < totalResponseCount [⟨0, 3, false⟩, ⟨1, 1, false⟩] ∧
    ((preprocessPercentages [⟨0, 3, false⟩, ⟨1, 1, false⟩]).length
        = ([⟨0, 3, false⟩, ⟨1, 1, false⟩] : List InteractiveOption).length ∧
      (∀ v ∈ preprocessPercentages [⟨0, 3, false⟩, ⟨1, 1, false⟩], v ≤ 100) ∧
      (preprocessPercentages [⟨0, 3, false⟩, ⟨1, 1, false⟩]).sum ≤ 100) :=
  ⟨by decide, c1_amended_percentage_vector [⟨0, 3, false⟩, ⟨1, 1, false⟩] (by decide)⟩

/-! ## Claim C2: the `[1, 1, 1]` tie group -/

/-- Counterexample to claim C2 as stated: the engine's result for counts
`[1, 1, 1]` does NOT sum to 100; it is `[33, 33, 33]`, summing to 99. -/
theorem c2_counterexample :
    preprocessPercentages [⟨0, 1, false⟩, ⟨1, 1, false⟩, ⟨2, 1, false⟩] = [33, 33, 33] ∧
    ¬ ((preprocessPercentages [⟨0, 1, false⟩, ⟨1, 1, false⟩, ⟨2, 1, false⟩]).sum = 100) := by
  decide

/-- Claim C2 as amended: for counts `[1, 1, 1]` all three entries form one tie
group of value 33.33 (remainder 0.33 ≠ 0, so not excluded by the zero-remainder
rule); the budget is `remainder = 100 - 99 = 1`, the group size 3 exceeds it,
so the whole group is floored — never split — and the engine returns
`[33, 33, 33]`, summing to 99 rather than 100. -/
theorem c2_amended_tie_group_floors :
    sortedObjs [⟨0, 1, false⟩, ⟨1, 1, false⟩, ⟨2, 1, false⟩]
        = [⟨0, 3333, 33⟩, ⟨1, 3333, 33⟩, ⟨2, 3333, 33⟩] ∧
    remainderBudget [⟨0, 1, false⟩, ⟨1, 1, false⟩, ⟨2, 1, false⟩] = 1 ∧
    finalAssignments [⟨0, 1, false⟩, ⟨1, 1, false⟩, ⟨2, 1, false⟩]
        = [(0, 33), (1, 33), (2, 33)] ∧
    preprocessPercentages [⟨0, 1, false⟩, ⟨1, 1, false⟩, ⟨2, 1, false⟩] = [33, 33, 33] ∧
    (preprocessPercentages [⟨0, 1, false⟩, ⟨1, 1, false⟩, ⟨2, 1, false⟩]).sum = 99 := by
  decide

/-! ## Claim C5: the overshoot correction -/

/-- Claim C5: when the round-half-up rounded raw percentages sum beyond 100,
every entry is adjusted — and the integer adjustment is exactly the spec's
`rawPct[i] - (2/3) * fractionalPart(rawPct[i])` re-rounded to two decimals
(computed over exact rationals); when the rounded sum is at most 100, the
percentages pass through unchanged. -/
theorem c5_overshoot_correction (optionsData : List InteractiveOption)
    (h : 0 < totalResponseCount optionsData) :
    (100 < ((rawPercentages optionsData).map mathRound).sum →
      correctedPercentages optionsData
          = (rawPercentages optionsData).map adjustPercentage ∧
        ∀ c ∈ rawPercentages optionsData,
          adjustPercentage c
            = ⌊(100 * specAdjustedPercentage ((c : ℚ) / 100) + 1 / 2 : ℚ)⌋₊) ∧
    (((rawPercentages optionsData).map mathRound).sum ≤ 100 →
      correctedPercentages optionsData = rawPercentages optionsData) := by
  constructor
  · intro hgt
    refine ⟨?_, fun c _ => adjustPercentage_spec c⟩
    unfold correctedPercentages overshootCorrect
    rw [if_pos hgt]
  · intro hle
    unfold correctedPercentages overshootCorrect
    rw [if_neg (by omega)]

/-- Witness for C5 at counts `[1, 1, 1, 3]`, where the rounded raw sum is 101
and the correction fires. -/
theorem c5_overshoot_correction_witness :
    0 < totalResponseCount [⟨0, 1, false⟩, ⟨1, 1, false⟩, ⟨2, 1, false⟩, ⟨3, 3, false⟩] ∧
    ((100 < ((rawPercentages
          [⟨0, 1, false⟩, ⟨1, 1, false⟩, ⟨2, 1, false⟩, ⟨3, 3, false⟩]).map mathRound).sum →
        correctedPercentages [⟨0, 1, false⟩, ⟨1, 1, false⟩, ⟨2, 1, false⟩, ⟨3, 3, false⟩]
            = (rawPercentages
                [⟨0, 1, false⟩, ⟨1, 1, false⟩, ⟨2, 1, false⟩, ⟨3, 3, false⟩]).map
                adjustPercentage ∧
          ∀ c ∈ rawPercentages [⟨0, 1, false⟩, ⟨1, 1, false⟩, ⟨2, 1, false⟩, ⟨3, 3, false⟩],
            adjustPercentage c
              = ⌊(100 * specAdjustedPercentage ((c : ℚ) / 100) + 1 / 2 : ℚ)⌋₊) ∧
      (((rawPercentages
            [⟨0, 1, false⟩, ⟨1, 1, false⟩, ⟨2, 1, false⟩, ⟨3, 3, false⟩]).map mathRound).sum
          ≤ 100 →
        correctedPercentages [⟨0, 1, false⟩, ⟨1, 1, false⟩, ⟨2, 1, false⟩, ⟨3, 3, false⟩]
            = rawPercentages [⟨0, 1, false⟩, ⟨1, 1, false⟩, ⟨2, 1, false⟩, ⟨3, 3, false⟩])) :=
  ⟨by decide,
    c5_overshoot_correction [⟨0, 1, false⟩, ⟨1, 1, false⟩, ⟨2, 1, false⟩, ⟨3, 3, false⟩]
      (by decide)⟩

/-! ## Claim C10: termination and totality of the distribution loop -/

/-- Claim C10: the largest-remainder loop of `preprocessPercentages_`
terminates within `length` iterations (any iteration bound of at least the
entry count yields the same result), assigns a final value to every original
position exactly once (its association-list keys are a permutation of
`range n`, so every lookup succeeds), and the result vector has the input's
length — also in runs where the budget stays positive because every remaining
tie group is too large or has zero fractional remainder. -/
theorem c10_loop_terminates_and_total (optionsData : List InteractiveOption)
    (h : 0 < totalResponseCount optionsData) :
    (∀ fuel, (sortedObjs optionsData).length ≤ fuel →
      distributeLoop fuel (remainderBudget optionsData) (sortedObjs optionsData)
        = finalAssignments optionsData) ∧
    ((finalAssignments optionsData).map Prod.fst).Perm (List.range optionsData.length) ∧
    (∀ i, i < optionsData.length →
      ((finalAssignments optionsData).lookup i).isSome = true) ∧
    (preprocessPercentages optionsData).length = optionsData.length := by
  refine ⟨?_, finalAssignments_keys_perm optionsData, ?_, ?_⟩
  · intro fuel hf
    exact distributeLoop_fuel_irrelevant fuel (sortedObjs optionsData).length _ _ hf (le_refl _)
  · intro i hi
    apply lookup_isSome_of_mem_keys
    exact (finalAssignments_keys_perm optionsData).mem_iff.2 (List.mem_range.2 hi)
  · by_cases hc : correctedTotal optionsData = 100
    · rw [preprocessPercentages, if_pos hc, List.length_map, correctedPercentages_length]
    · rw [preprocessPercentages, if_neg hc]
      simp

/-- Witness for C10 at counts `[1, 1, 1]`, where the loop ends with a still
positive budget because the single tie group is too large. -/
theorem c10_loop_terminates_and_total_witness :
    0 < totalResponseCount [⟨0, 1, false⟩, ⟨1, 1, false⟩, ⟨2, 1, false⟩] ∧
    ((∀ fuel, (sortedObjs [⟨0, 1, false⟩, ⟨1, 1, false⟩, ⟨2, 1, false⟩]).length ≤ fuel →
        distributeLoop fuel (remainderBudget [⟨0, 1, false⟩, ⟨1, 1, false⟩, ⟨2, 1, false⟩])
            (sortedObjs [⟨0, 1, false⟩, ⟨1, 1, false⟩, ⟨2, 1, false⟩])
          = finalAssignments [⟨0, 1, false⟩, ⟨1, 1, false⟩, ⟨2, 1, false⟩]) ∧
      ((finalAssignments [⟨0, 1, false⟩, ⟨1, 1, false⟩, ⟨2, 1, false⟩]).map Prod.fst).Perm
        (List.range ([⟨0, 1, false⟩, ⟨1, 1, false⟩, ⟨2, 1, false⟩] :
          List InteractiveOption).length) ∧
      (∀ i, i < ([⟨0, 1, false⟩, ⟨1, 1, false⟩, ⟨2, 1, false⟩] :
          List InteractiveOption).length →
        ((finalAssignments [⟨0, 1, false⟩, ⟨1, 1, false⟩, ⟨2, 1, false⟩]).lookup i).isSome
          = true) ∧
      (preprocessPercentages [⟨0, 1, false⟩, ⟨1, 1, false⟩, ⟨2, 1, false⟩]).length
        = ([⟨0, 1, false⟩, ⟨1, 1, false⟩, ⟨2, 1, false⟩] : List InteractiveOption).length) :=
  ⟨by decide,
    c10_loop_terminates_and_total [⟨0, 1, false⟩, ⟨1, 1, false⟩, ⟨2, 1, false⟩] (by decide)⟩

end AmpStoryInteractive
